import Mathlib

/-!
Shallow embedding of the agent decision core of the rustjammers repository
(src/agent.rs) together with theorems settling the frozen claims about it.

The surrounding game modules (vector2, player, frisbee, game_engine) are not
part of the repository snapshot; where a definition depends on them it is
modelled from the specification and its doc comment says so.  Rust mutable
references are rendered as explicit state passing: a function that mutates an
engine through a reference returns the updated engine value.  Machine
integers (i8, i64, u8, usize, u64) are modelled as Int or Nat; f32/f64
values that are only compared are modelled as rationals.
-/

namespace Rustjammers

/-- Side of a player, from the player module (modelled from the spec). -/
inductive PlayerSide
  | Left
  | Right
deriving DecidableEq

/-- The five throw directions, from the frisbee module (modelled from the spec). -/
inductive ThrowDirection
  | Up
  | LightUp
  | Middle
  | LightDown
  | Down
deriving DecidableEq

/-- Match lifecycle flag; agent.rs only ever tests equality with Playing, so
all non-Playing states are collapsed into one (modelled from the spec). -/
inductive StateOfGame
  | Playing
  | Ended
deriving DecidableEq

/-- 2D vector from the vector2 crate (modelled from the spec); components are
exact rationals in place of f64. -/
structure Vector2 where
  x : ℚ
  y : ℚ
deriving DecidableEq

def Vector2.zero : Vector2 := ⟨0, 0⟩

def Vector2.sub (a b : Vector2) : Vector2 := ⟨a.x - b.x, a.y - b.y⟩

/-- Rational square root when one exists: a reduced nonnegative rational has a
rational square root exactly when its numerator and denominator are perfect
squares. -/
def ratSqrt (q : ℚ) : Option ℚ :=
  if q < 0 then none
  else
    let n := q.num.toNat
    let d := q.den
    let sn := Nat.sqrt n
    let sd := Nat.sqrt d
    if sn * sn = n ∧ sd * sd = d then some ((sn : ℚ) / (sd : ℚ)) else none

/-- Modelled from the spec: the vector2 crate is not in the repository
snapshot.  Normalization to unit length, the zero vector staying zero
("combined axes added then normalized to unit length, zero vector stays
zero").  The result is exact whenever the Euclidean length is rational; a
vector of irrational length (a diagonal) is returned unscaled, and no settled
claim depends on the numeric value of such a vector, only on its identity. -/
def Vector2.normalized (v : Vector2) : Vector2 :=
  match ratSqrt (v.x * v.x + v.y * v.y) with
  | some l => if l = 0 then v else ⟨v.x / l, v.y / l⟩
  | none => v

/-- The directional input flags of agent.rs (bitflags HumanIntent over u8):
one Bool per defined bit. -/
structure HumanIntent where
  up : Bool
  down : Bool
  left : Bool
  right : Bool
  thrw : Bool
deriving DecidableEq

def HumanIntent.IDLE : HumanIntent := ⟨false, false, false, false, false⟩

def HumanIntent.UP : HumanIntent := ⟨true, false, false, false, false⟩

def HumanIntent.DOWN : HumanIntent := ⟨false, true, false, false, false⟩

def HumanIntent.LEFT : HumanIntent := ⟨false, false, true, false, false⟩

def HumanIntent.RIGHT : HumanIntent := ⟨false, false, false, true, false⟩

def HumanIntent.THROW : HumanIntent := ⟨false, false, false, false, true⟩

/-- Bitwise or of two flag sets (the | operator of bitflags). -/
def HumanIntent.union (a b : HumanIntent) : HumanIntent :=
  ⟨a.up || b.up, a.down || b.down, a.left || b.left, a.right || b.right,
    a.thrw || b.thrw⟩

/-- Per-side player data; only the fields agent.rs reads are modelled
(modelled from the spec: position, integer score, dash/slide-in-progress).
The score is an i8 in the engine; the spec constrains it no further than
"integer", so it is modelled as Int. -/
structure Player where
  pos : Vector2
  score : Int
  slide : Option Unit
deriving DecidableEq

/-- Frisbee data read by agent.rs (modelled from the spec). -/
structure Frisbee where
  pos : Vector2
  held_by_player : Option PlayerSide
deriving DecidableEq

/-- Size of the discrete action space (agent.rs: QVALUES_ACTIONS = 17). -/
abbrev QVALUES_ACTIONS : Nat := 17

/-- One side's fixed-length action-value array ([f32; 17], values as ℚ). -/
abbrev QArray := Fin QVALUES_ACTIONS → ℚ

/-- The game-engine state fields agent.rs reads or writes (modelled from the
spec, section 6).  The value table (HashMap u64 → pair of arrays) is an
association list keyed by the hash. -/
structure GameEngine where
  state_of_game : StateOfGame
  players : Player × Player
  frisbee : Frisbee
  inputs : HumanIntent × HumanIntent
  explo_rate : ℚ
  q_values : List (Nat × (QArray × QArray))

/-- The discrete intent produced by every agent (agent.rs enum Intent). -/
inductive Intent
  | None
  | Move (dir : Vector2)
  | Dash (dir : Vector2)
  | Throw (dir : ThrowDirection)
deriving DecidableEq

/-- Modelled from the spec: the engine dynamics agent.rs calls into
(GameEngine::step, GameEngine::epoch, GameEngine::hash, GameEngine::new) live
in the game_engine module, outside the snapshot.  They are abstract
parameters; theorems quantify over them and concrete instances witness
counterexamples. -/
structure Dynamics where
  step : GameEngine → Intent × Intent → GameEngine
  epoch : GameEngine → HumanIntent × HumanIntent → GameEngine
  hash : GameEngine → Nat
  newEngine : GameEngine

/-- The acting side's player (the match on side repeated through agent.rs). -/
def playerOf (side : PlayerSide) (e : GameEngine) : Player :=
  match side with
  | PlayerSide.Left => e.players.1
  | PlayerSide.Right => e.players.2

/-- The acting side's score. -/
def scoreOf (side : PlayerSide) (e : GameEngine) : Int :=
  (playerOf side e).score

/-- The intent pair handed to step: the acting side gets the intent, the
opposing side gets Intent.None (agent.rs lines 28-31). -/
def pairIntents (side : PlayerSide) (intent : Intent) : Intent × Intent :=
  match side with
  | PlayerSide.Left => (intent, Intent.None)
  | PlayerSide.Right => (Intent.None, intent)

/-- One idle engine tick: epoch with both inputs idle. -/
def epochIdle (dyn : Dynamics) (e : GameEngine) : GameEngine :=
  dyn.epoch e (HumanIntent.IDLE, HumanIntent.IDLE)

open HumanIntent in
/-- agent.rs human_intent_to_index: the hand-enumerated table from flag
combination to canonical index, any unlisted combination mapping to 0. -/
def human_intent_to_index (val : HumanIntent) : Nat :=
  if val = UP then 1
  else if val = DOWN then 2
  else if val = LEFT then 3
  else if val = RIGHT then 4
  else if val = union UP LEFT then 5
  else if val = union UP RIGHT then 6
  else if val = union DOWN LEFT then 7
  else if val = union DOWN RIGHT then 8
  else if val = union THROW UP then 9
  else if val = union THROW DOWN then 10
  else if val = union THROW LEFT then 11
  else if val = union THROW RIGHT then 12
  else if val = union (union THROW UP) LEFT then 13
  else if val = union (union THROW UP) RIGHT then 14
  else if val = union (union THROW DOWN) LEFT then 15
  else if val = union (union THROW DOWN) RIGHT then 16
  else 0

open HumanIntent in
/-- agent.rs human_intent_from_index: inverse table, any index outside [1,16]
mapping to the idle flags. -/
def human_intent_from_index (idx : Nat) : HumanIntent :=
  if idx = 1 then UP
  else if idx = 2 then DOWN
  else if idx = 3 then LEFT
  else if idx = 4 then RIGHT
  else if idx = 5 then union UP LEFT
  else if idx = 6 then union UP RIGHT
  else if idx = 7 then union DOWN LEFT
  else if idx = 8 then union DOWN RIGHT
  else if idx = 9 then union THROW UP
  else if idx = 10 then union THROW DOWN
  else if idx = 11 then union THROW LEFT
  else if idx = 12 then union THROW RIGHT
  else if idx = 13 then union (union THROW UP) LEFT
  else if idx = 14 then union (union THROW UP) RIGHT
  else if idx = 15 then union (union THROW DOWN) LEFT
  else if idx = 16 then union (union THROW DOWN) RIGHT
  else IDLE

/-- The direction computation of agent.rs human_intent_to_intent lines
175-188: a mutable vector starting at zero, each set flag assigning its axis
(so Down overwrites Up and Right overwrites Left), then normalized. -/
def dirOf (input : HumanIntent) : Vector2 :=
  let v0 := Vector2.zero
  let v1 := if input.up then { v0 with y := 1 } else v0
  let v2 := if input.down then { v1 with y := -1 } else v1
  let v3 := if input.left then { v2 with x := -1 } else v2
  let v4 := if input.right then { v3 with x := 1 } else v3
  v4.normalized

/-- The throw-direction selection of agent.rs human_intent_to_intent lines
192-207: vertical flag picks Up or Down, and the light variant is chosen when
the horizontal flag points toward the opponent (Right for side Left, Left for
side Right); no vertical flag gives Middle. -/
def throwDirOf (input : HumanIntent) (side : PlayerSide) : ThrowDirection :=
  if input.up then
    if (input.right = true ∧ side = PlayerSide.Left)
        ∨ (input.left = true ∧ side = PlayerSide.Right) then
      ThrowDirection.LightUp
    else ThrowDirection.Up
  else if input.down then
    if (input.right = true ∧ side = PlayerSide.Left)
        ∨ (input.left = true ∧ side = PlayerSide.Right) then
      ThrowDirection.LightDown
    else ThrowDirection.Down
  else ThrowDirection.Middle

/-- agent.rs human_intent_to_intent: flags and possession to a domain
Intent.  With Throw set it throws when possessing and dashes otherwise; with
Throw clear it moves along the computed direction, or does nothing when the
direction is zero. -/
def human_intent_to_intent (e : GameEngine) (input : HumanIntent)
    (side : PlayerSide) : Intent :=
  let dir := dirOf input
  if input.thrw then
    if e.frisbee.held_by_player = some side then
      Intent.Throw (throwDirOf input side)
    else Intent.Dash dir
  else if dir.x = 0 ∧ dir.y = 0 then Intent.None
  else Intent.Move dir

/-- The idle-advance loop of agent.rs simulation (lines 35-40): up to the
frame budget of idle epochs, each epoch followed by a check that the game is
still Playing, the loop breaking right after the epoch that left Playing.
Note the check runs after the epoch, so with a positive budget one epoch runs
even if the state was already non-Playing on entry. -/
def idleLoop (dyn : Dynamics) : GameEngine → Nat → GameEngine
  | e, 0 => e
  | e, n + 1 =>
    if (epochIdle dyn e).state_of_game ≠ StateOfGame.Playing then epochIdle dyn e
    else idleLoop dyn (epochIdle dyn e) n

/-- agent.rs simulation (lines 27-48): apply the intent for one step with the
opposing side idle, idle-advance, and return the acting side's score paired
with the original intent.  The returned engine is the mutated clone (the &mut
argument). -/
def simulation (dyn : Dynamics) (engine : GameEngine) (side : PlayerSide)
    (intent : Intent) (nbFrames : Nat) : (Int × Intent) × GameEngine :=
  let e1 := dyn.step engine (pairIntents side intent)
  let e2 := idleLoop dyn e1 nbFrames
  ((scoreOf side e2, intent), e2)

/-- Modelled from the spec sentence of claim C5 ("stopping early the moment
the game is no longer in its Playing state"): the idle loop that checks the
Playing state before each advance, so a state that is already non-Playing is
advanced zero times. -/
def idleLoopClaim (dyn : Dynamics) : GameEngine → Nat → GameEngine
  | e, 0 => e
  | e, n + 1 =>
    if e.state_of_game ≠ StateOfGame.Playing then e
    else idleLoopClaim dyn (epochIdle dyn e) n

/-- Modelled from the spec sentence of claim C5: the simulation driver as the
claim reads, with the check-then-advance idle loop. -/
def simulationClaim (dyn : Dynamics) (engine : GameEngine) (side : PlayerSide)
    (intent : Intent) (nbFrames : Nat) : (Int × Intent) × GameEngine :=
  let e1 := dyn.step engine (pairIntents side intent)
  let e2 := idleLoopClaim dyn e1 nbFrames
  ((scoreOf side e2, intent), e2)

/-- agent.rs inner fn run_simulation of RandomRolloutAgent::act (lines
248-255): copy the live engine into the scratch engine, run the simulation
driver there, and replace the held best only on a strictly greater score.
The live engine is borrowed immutably (&GameEngine). -/
def run_simulation (dyn : Dynamics) (prev : Int × Intent) (engine : GameEngine)
    (side : PlayerSide) (intent : Intent) (frames : Nat) : Int × Intent :=
  let test := (simulation dyn engine side intent frames).1
  if prev.1 < test.1 then test else prev

/-- The five throw candidates, in evaluation order (agent.rs lines 262-266). -/
def throwIntents : List Intent :=
  [Intent.Throw ThrowDirection.Up, Intent.Throw ThrowDirection.LightUp,
   Intent.Throw ThrowDirection.Middle, Intent.Throw ThrowDirection.LightDown,
   Intent.Throw ThrowDirection.Down]

/-- The eight move and eight dash candidates, in evaluation order (agent.rs
lines 275-291). -/
def moveDashIntents : List Intent :=
  [Intent.Move ⟨0, 1⟩, Intent.Move ⟨0, -1⟩, Intent.Move ⟨-1, 0⟩,
   Intent.Move ⟨1, 0⟩,
   Intent.Move (Vector2.normalized ⟨-1, -1⟩),
   Intent.Move (Vector2.normalized ⟨-1, 1⟩),
   Intent.Move (Vector2.normalized ⟨1, -1⟩),
   Intent.Move (Vector2.normalized ⟨1, 1⟩),
   Intent.Dash ⟨0, 1⟩, Intent.Dash ⟨0, -1⟩, Intent.Dash ⟨-1, 0⟩,
   Intent.Dash ⟨1, 0⟩,
   Intent.Dash (Vector2.normalized ⟨-1, -1⟩),
   Intent.Dash (Vector2.normalized ⟨-1, 1⟩),
   Intent.Dash (Vector2.normalized ⟨1, -1⟩),
   Intent.Dash (Vector2.normalized ⟨1, 1⟩)]

/-- The move and dash candidates when not possessing: empty while mid-dash
(agent.rs line 270 slide check). -/
def rolloutNonHoldCandidates (e : GameEngine) (side : PlayerSide) : List Intent :=
  if (playerOf side e).slide.isNone then moveDashIntents else []

/-- Per-repetition candidate enumeration of RandomRolloutAgent::act (the
match on held_by_player, lines 259-294). -/
def rolloutCandidates (e : GameEngine) (side : PlayerSide) : List Intent :=
  match e.frisbee.held_by_player with
  | some h => if h = side then throwIntents else rolloutNonHoldCandidates e side
  | none => rolloutNonHoldCandidates e side

/-- Configuration of the rollout agent (agent.rs line 234); frames is f64 in
the source but only ever used as a loop count after an integer cast. -/
structure RandomRolloutAgent where
  frames : Nat
  sim : Nat

/-- agent.rs RandomRolloutAgent::act (lines 240-298): sim repetitions over
the candidate list, folding run_simulation from (0, Intent.None).  The live
engine is only read by the body; the engine in the result renders the &mut
borrow and is the value the caller observes afterwards. -/
def RandomRolloutAgent.act (cfg : RandomRolloutAgent) (dyn : Dynamics)
    (side : PlayerSide) (e : GameEngine) : Intent × GameEngine :=
  let prev : Int × Intent :=
    (List.range cfg.sim).foldl
      (fun prev _ =>
        (rolloutCandidates e side).foldl
          (fun p c => run_simulation dyn p e side c cfg.frames) prev)
      (0, Intent.None)
  (prev.2, e)

/-- The (score, intent) pairs RandomRolloutAgent::act evaluates, in
evaluation order: sim repetitions of the per-repetition candidate list. -/
def rolloutEvalList (dyn : Dynamics) (cfg : RandomRolloutAgent)
    (side : PlayerSide) (e : GameEngine) : List (Int × Intent) :=
  (List.range cfg.sim).flatMap
    (fun _ => (rolloutCandidates e side).map
      (fun c => (simulation dyn e side c cfg.frames).1))

/-- The maximum evaluated score, starting from 0 like the fold in act. -/
def rolloutMaxScore (l : List (Int × Intent)) : Int :=
  l.foldl (fun m p => max m p.1) 0

/-- The amended C2 selection rule in executable form: the first evaluated
candidate attaining the maximal score, provided that maximum is strictly
positive, and Intent.None otherwise. -/
def rolloutSpec (dyn : Dynamics) (cfg : RandomRolloutAgent) (side : PlayerSide)
    (e : GameEngine) : Intent :=
  let l := rolloutEvalList dyn cfg side e
  let M := rolloutMaxScore l
  if 0 < M then ((l.find? (fun p => decide (p.1 = M))).map Prod.snd).getD Intent.None
  else Intent.None

/-- agent.rs search Node (lines 303-308). -/
structure Node where
  engine : GameEngine
  first_intent : Intent
  cost : Int
  score : Int

/-- agent.rs get_best (lines 311-330): a first pass computes a running
maximum score starting from 0 (not from the first node), a second pass keeps
every node whose score equals that maximum, each with a copied engine
snapshot (copy_in is a deep copy, so the copy is the same engine value). -/
def get_best (nodes : List Node) : List Node :=
  let max_score := nodes.foldl (fun m n => if m < n.score then n.score else m) 0
  nodes.foldl
    (fun acc n =>
      if n.score = max_score then
        acc ++ [⟨n.engine, n.first_intent, n.cost, n.score⟩]
      else acc)
    []

/-- Modelled from the spec: the distance-to-object read of simulation_dij
(vector2 length of frisbee position minus player position, lines 341-349).
The squared Euclidean length stands in for the length — the vector2 crate is
outside the snapshot — and agent.rs only ever compares two such distances,
which squaring preserves. -/
def distToFrisbee (side : PlayerSide) (e : GameEngine) : ℚ :=
  let d := Vector2.sub e.frisbee.pos (playerOf side e).pos
  d.x * d.x + d.y * d.y

set_option maxHeartbeats 1600000 in
/-- agent.rs simulation_dij (lines 332-413): prune at the cost bound or off
the Playing state; otherwise step the intent, derive the heuristic delta from
the distance change (overridden to 100000 when the step gains possession),
record a node, and recurse over the candidate intents on a fresh engine
(GameEngine::new(), never a copy of the stepped state — faithful to the
source), the fresh engine being threaded through the sibling calls exactly as
the shared &mut new_engine is.  The first component of the result is the
final value of the engine variable the caller passed; the second is the list
of nodes pushed, in push order. -/
def simulation_dij (dyn : Dynamics) (side : PlayerSide) (intent : Intent)
    (score cost : Int) (engine : GameEngine) : GameEngine × List Node :=
  if h : 1000000000000 ≤ cost ∨ engine.state_of_game ≠ StateOfGame.Playing then
    (engine, [])
  else
    let intents := pairIntents side intent
    let distance_before := distToFrisbee side engine
    let e1 := dyn.step engine intents
    let distance_after := distToFrisbee side e1
    let a1 : Int := if distance_after < distance_before then 1000 else 0
    let a2 : Int := a1 - (if distance_before < distance_after then 100 else 0)
    let a3 : Int := a2 - (if distance_after = distance_before then 50 else 0)
    let player := playerOf side e1
    let add_score : Int :=
      if e1.frisbee.held_by_player = some side then 100000 else a3
    let node : Node := ⟨e1, intent, cost, add_score + score⟩
    if e1.frisbee.held_by_player = some side then
      let r1 := simulation_dij dyn side (Intent.Throw ThrowDirection.Up)
        (add_score + score + 3000 + player.score) (cost + 1) dyn.newEngine
      let r2 := simulation_dij dyn side (Intent.Throw ThrowDirection.LightUp)
        (add_score + score + 4000 + player.score) (cost + 1) r1.1
      let r3 := simulation_dij dyn side (Intent.Throw ThrowDirection.Middle)
        (add_score + score + 2000 + player.score) (cost + 1) r2.1
      let r4 := simulation_dij dyn side (Intent.Throw ThrowDirection.LightDown)
        (add_score + score + 4000 + player.score) (cost + 1) r3.1
      let r5 := simulation_dij dyn side (Intent.Throw ThrowDirection.Down)
        (add_score + score + 3000 + player.score) (cost + 1) r4.1
      (e1, node :: (r1.2 ++ r2.2 ++ r3.2 ++ r4.2 ++ r5.2))
    else if player.slide.isNone then
      let m1 := simulation_dij dyn side (Intent.Move ⟨0, 1⟩)
        (add_score + score + player.score + 1) (cost + 1) dyn.newEngine
      let m2 := simulation_dij dyn side (Intent.Move ⟨0, -1⟩)
        (add_score + score + player.score + 1) (cost + 1) m1.1
      let m3 := simulation_dij dyn side (Intent.Move ⟨-1, 0⟩)
        (add_score + score + player.score + 1) (cost + 1) m2.1
      let m4 := simulation_dij dyn side (Intent.Move ⟨1, 0⟩)
        (add_score + score + player.score + 1) (cost + 1) m3.1
      let m5 := simulation_dij dyn side (Intent.Move (Vector2.normalized ⟨-1, -1⟩))
        (add_score + score + player.score + 1) (cost + 1) m4.1
      let m6 := simulation_dij dyn side (Intent.Move (Vector2.normalized ⟨-1, 1⟩))
        (add_score + score + player.score + 1) (cost + 1) m5.1
      let m7 := simulation_dij dyn side (Intent.Move (Vector2.normalized ⟨1, -1⟩))
        (add_score + score + player.score + 1) (cost + 1) m6.1
      let m8 := simulation_dij dyn side (Intent.Move (Vector2.normalized ⟨1, 1⟩))
        (add_score + score + player.score + 1) (cost + 1) m7.1
      let d1 := simulation_dij dyn side (Intent.Dash ⟨0, 1⟩)
        (add_score + score + player.score + 1) (cost + 4) m8.1
      let d2 := simulation_dij dyn side (Intent.Dash ⟨0, -1⟩)
        (add_score + score + player.score + 1) (cost + 4) d1.1
      let d3 := simulation_dij dyn side (Intent.Dash ⟨-1, 0⟩)
        (add_score + score + player.score + 1) (cost + 4) d2.1
      let d4 := simulation_dij dyn side (Intent.Dash ⟨1, 0⟩)
        (add_score + score + player.score + 1) (cost + 4) d3.1
      let d5 := simulation_dij dyn side (Intent.Dash (Vector2.normalized ⟨-1, -1⟩))
        (add_score + score + player.score + 1) (cost + 4) d4.1
      let d6 := simulation_dij dyn side (Intent.Dash (Vector2.normalized ⟨-1, 1⟩))
        (add_score + score + player.score + 1) (cost + 4) d5.1
      let d7 := simulation_dij dyn side (Intent.Dash (Vector2.normalized ⟨1, -1⟩))
        (add_score + score + player.score + 1) (cost + 4) d6.1
      let d8 := simulation_dij dyn side (Intent.Dash (Vector2.normalized ⟨1, 1⟩))
        (add_score + score + player.score + 1) (cost + 4) d7.1
      (e1, node :: (m1.2 ++ m2.2 ++ m3.2 ++ m4.2 ++ m5.2 ++ m6.2 ++ m7.2
        ++ m8.2 ++ d1.2 ++ d2.2 ++ d3.2 ++ d4.2 ++ d5.2 ++ d6.2 ++ d7.2 ++ d8.2))
    else (e1, [node])
termination_by (1000000000000 - cost).toNat
decreasing_by
  all_goals
    (have hc : ¬ (1000000000000 ≤ cost) := fun hx => h (Or.inl hx)
     omega)

/-- The top-level candidate push of DijkstraAgent::act (inner fn
run_simulation, lines 433-440): a node for the candidate at cost -1 with the
given root score, then the recursive expansion from a copy of the live engine
at cost 0. -/
def dijTopCandidate (dyn : Dynamics) (side : PlayerSide) (e : GameEngine)
    (intent : Intent) (score : Int) : List Node :=
  Node.mk e intent (-1) score :: (simulation_dij dyn side intent score 0 e).2

/-- The equal-cost coin-flip tie-break loop of DijkstraAgent::act (lines
480-494): scan the whole best list, take a strictly cheaper node, and on an
equal cost replace the held pick when the draw exceeds 50.  coin k is the
k-th draw of rng.gen_range(1, 100); a draw is consumed only when the equality
test fires, matching the short-circuit in the source. -/
def dijTieBreak (coin : Nat → Nat) (best : List Node) (cost0 : Int)
    (intent0 : Intent) : Intent :=
  (best.foldl
    (fun acc i =>
      let cost := acc.1
      let intent := acc.2.1
      let k := acc.2.2
      let cost2 := if i.cost < cost then i.cost else cost
      let intent2 := if i.cost < cost then i.first_intent else intent
      if i.cost = cost2 then
        if 50 < coin k then (i.cost, i.first_intent, k + 1)
        else (cost2, intent2, k + 1)
      else (cost2, intent2, k))
    (cost0, intent0, 0)).2.1

/-- agent.rs DijkstraAgent::act (lines 419-497): root node at cost -1 and the
acting side's score, one top-level candidate push per immediate intent, then
selection through get_best.  The Rust code indexes best[0], which panics when
get_best is empty; the embedding returns none there.  The live engine is only
read. -/
def DijkstraAgent.act (dyn : Dynamics) (coin : Nat → Nat) (side : PlayerSide)
    (e : GameEngine) : Option Intent :=
  let player := playerOf side e
  let rootNode : Node := ⟨e, Intent.None, -1, player.score⟩
  let cands : List Node :=
    if e.frisbee.held_by_player = some side then
      dijTopCandidate dyn side e (Intent.Throw ThrowDirection.Up) (player.score + 30)
        ++ dijTopCandidate dyn side e (Intent.Throw ThrowDirection.LightUp) (player.score + 40)
        ++ dijTopCandidate dyn side e (Intent.Throw ThrowDirection.Middle) (player.score + 20)
        ++ dijTopCandidate dyn side e (Intent.Throw ThrowDirection.LightDown) (player.score + 40)
        ++ dijTopCandidate dyn side e (Intent.Throw ThrowDirection.Down) (player.score + 30)
    else if player.slide.isNone then
      dijTopCandidate dyn side e (Intent.Move ⟨0, 1⟩) (player.score + 1)
        ++ dijTopCandidate dyn side e (Intent.Move ⟨0, -1⟩) (player.score + 1)
        ++ dijTopCandidate dyn side e (Intent.Move ⟨-1, 0⟩) (player.score + 1)
        ++ dijTopCandidate dyn side e (Intent.Move ⟨1, 0⟩) (player.score + 1)
        ++ dijTopCandidate dyn side e (Intent.Move (Vector2.normalized ⟨-1, -1⟩)) (player.score + 1)
        ++ dijTopCandidate dyn side e (Intent.Move (Vector2.normalized ⟨-1, 1⟩)) (player.score + 1)
        ++ dijTopCandidate dyn side e (Intent.Move (Vector2.normalized ⟨1, -1⟩)) (player.score + 1)
        ++ dijTopCandidate dyn side e (Intent.Move (Vector2.normalized ⟨1, 1⟩)) (player.score + 1)
        ++ dijTopCandidate dyn side e (Intent.Dash ⟨0, 1⟩) (player.score + 1)
        ++ dijTopCandidate dyn side e (Intent.Dash ⟨0, -1⟩) (player.score + 1)
        ++ dijTopCandidate dyn side e (Intent.Dash ⟨-1, 0⟩) (player.score + 1)
        ++ dijTopCandidate dyn side e (Intent.Dash ⟨1, 0⟩) (player.score + 1)
        ++ dijTopCandidate dyn side e (Intent.Dash (Vector2.normalized ⟨-1, -1⟩)) (player.score + 1)
        ++ dijTopCandidate dyn side e (Intent.Dash (Vector2.normalized ⟨-1, 1⟩)) (player.score + 1)
        ++ dijTopCandidate dyn side e (Intent.Dash (Vector2.normalized ⟨1, -1⟩)) (player.score + 1)
        ++ dijTopCandidate dyn side e (Intent.Dash (Vector2.normalized ⟨1, 1⟩)) (player.score + 1)
    else []
  let nodes := rootNode :: cands
  match get_best nodes with
  | [] => none
  | b :: bs => some (dijTieBreak coin (b :: bs) b.cost b.first_intent)

/-- agent.rs inner fn max_index of TabularQLearningAgent::act (lines
520-530): running index starting at 0, replaced whenever a strictly greater
value appears — so the first index of the maximum wins ties. -/
def max_index (a : QArray) : Fin QVALUES_ACTIONS :=
  (List.finRange QVALUES_ACTIONS).foldl
    (fun idx key => if a idx < a key then key else idx) ⟨0, by norm_num⟩

/-- The random draws TabularQLearningAgent::act consumes: the explore/exploit
draw in [0,1) and the uniformly drawn explore action index. -/
structure QRng where
  draw : ℚ
  explore : Fin QVALUES_ACTIONS

/-- The per-side captured-input slot of the engine. -/
def inputSlot (side : PlayerSide) (e : GameEngine) : HumanIntent :=
  match side with
  | PlayerSide.Left => e.inputs.1
  | PlayerSide.Right => e.inputs.2

/-- agent.rs TabularQLearningAgent::act (lines 516-568): explore below
explo_rate, otherwise exploit through the value table (contains_key then
index, rendered as one lookup), write the chosen flags into the per-side
input slot, and resolve them to an Intent. -/
def TabularQLearningAgent.act (dyn : Dynamics) (rng : QRng) (side : PlayerSide)
    (e : GameEngine) : Intent × GameEngine :=
  let intent : HumanIntent :=
    if rng.draw < e.explo_rate then human_intent_from_index rng.explore.val
    else
      let hash := dyn.hash e
      let intent_index : Nat :=
        match side with
        | PlayerSide.Left =>
          match e.q_values.lookup hash with
          | some p => (max_index p.1).val
          | none => 0
        | PlayerSide.Right =>
          match e.q_values.lookup hash with
          | some p => (max_index p.2).val
          | none => 0
      human_intent_from_index intent_index
  let e2 :=
    match side with
    | PlayerSide.Left => { e with inputs := (intent, e.inputs.2) }
    | PlayerSide.Right => { e with inputs := (e.inputs.1, intent) }
  (human_intent_to_intent e2 intent side, e2)

/-- Modelled from the spec sentence of claim C3: the direction as the
normalized sum of the axis contributions of the set flags (opposite flags
cancelling). -/
def dirOfClaim (input : HumanIntent) : Vector2 :=
  Vector2.normalized
    ⟨(if input.right then 1 else 0) + (if input.left then -1 else 0),
     (if input.up then 1 else 0) + (if input.down then -1 else 0)⟩

open HumanIntent in
/-- Throw with Up and Right. -/
def TUR : HumanIntent := union (union THROW UP) RIGHT

open HumanIntent in
/-- Throw with Up and Left. -/
def TUL : HumanIntent := union (union THROW UP) LEFT

open HumanIntent in
/-- Throw with Down and Right. -/
def TDR : HumanIntent := union (union THROW DOWN) RIGHT

open HumanIntent in
/-- Throw with Down and Left. -/
def TDL : HumanIntent := union (union THROW DOWN) LEFT

/-- The acting side's array of a value-table pair. -/
def qArrOf (side : PlayerSide) (p : QArray × QArray) : QArray :=
  match side with
  | PlayerSide.Left => p.1
  | PlayerSide.Right => p.2

/-- The all-zero action-value array. -/
def qZero : QArray := fun _ => 0

/-- A concrete engine: playing, both players at the origin with score 0 and
not dashing, frisbee free at the origin, idle inputs, empty value table. -/
def baseEngine : GameEngine :=
  ⟨StateOfGame.Playing, (⟨Vector2.zero, 0, none⟩, ⟨Vector2.zero, 0, none⟩),
    ⟨Vector2.zero, none⟩, (HumanIntent.IDLE, HumanIntent.IDLE), 0, []⟩

/-- baseEngine with the frisbee held by the left player. -/
def heldLeftEngine : GameEngine :=
  { baseEngine with frisbee := ⟨Vector2.zero, some PlayerSide.Left⟩ }

/-- baseEngine with the frisbee held by the right player. -/
def heldRightEngine : GameEngine :=
  { baseEngine with frisbee := ⟨Vector2.zero, some PlayerSide.Right⟩ }

/-- Identity dynamics: stepping and idling change nothing. -/
def idDynamics : Dynamics :=
  ⟨fun e _ => e, fun e _ => e, fun _ => 0, baseEngine⟩

/-- Dynamics for the C5 counterexample: the intent step ends the game, and an
idle epoch still increments the left score by one. -/
def endStepDynamics : Dynamics :=
  ⟨fun e _ => { e with state_of_game := StateOfGame.Ended },
   fun e _ =>
     { e with players :=
        ({ e.players.1 with score := e.players.1.score + 1 }, e.players.2) },
   fun _ => 0, baseEngine⟩

/-- Mid-dash left player with a negative score (C4 counterexample). -/
def dashingNegEngine : GameEngine :=
  { baseEngine with
    players := (⟨Vector2.zero, -1, some ()⟩, ⟨Vector2.zero, 0, none⟩) }

/-- Mid-dash left player with score zero (C4 witness). -/
def dashingZeroEngine : GameEngine :=
  { baseEngine with
    players := (⟨Vector2.zero, 0, some ()⟩, ⟨Vector2.zero, 0, none⟩) }

/-- Demo node of score 10 for the C1 selection example. -/
def demoNode10 : Node := ⟨baseEngine, Intent.Move ⟨0, 1⟩, 0, 10⟩

/-- First demo node of score 50. -/
def demoNode50a : Node := ⟨baseEngine, Intent.Move ⟨0, -1⟩, 1, 50⟩

/-- Second demo node of score 50. -/
def demoNode50b : Node := ⟨baseEngine, Intent.Dash ⟨1, 0⟩, 2, 50⟩

/-- Demo node of score 30. -/
def demoNode30 : Node := ⟨baseEngine, Intent.None, 3, 30⟩

/-- The fixed node set of scores [10, 50, 50, 30] named by claim C1. -/
def demoNodes : List Node := [demoNode10, demoNode50a, demoNode50b, demoNode30]

/-- A single node of negative score (C1 counterexample). -/
def negNode : Node := ⟨baseEngine, Intent.Move ⟨0, 1⟩, 0, -5⟩

/-- A value-table row whose maximum sits at index 3. -/
def demoArray : QArray := fun k => if k.val = 3 then 5 else 0

/-- baseEngine with one value-table entry under hash 0 (C9 witness). -/
def tableEngine : GameEngine :=
  { baseEngine with q_values := [(0, (demoArray, qZero))] }

/-! Helper lemmas about the two fold shapes agent.rs uses: the running
maximum of a score over a list, and the strict-improvement fold that keeps
the first element attaining the maximum. -/

/-- The running-maximum fold dominates its start and every element. -/
theorem foldl_max_le {α β : Type} [LinearOrder β] (sc : α → β) :
    ∀ (l : List α) (m0 : β),
      m0 ≤ l.foldl (fun m x => max m (sc x)) m0
      ∧ ∀ x ∈ l, sc x ≤ l.foldl (fun m x => max m (sc x)) m0 := by
  intro l
  induction l with
  | nil => exact fun m0 => ⟨le_refl m0, by simp⟩
  | cons a t ih =>
    intro m0
    simp only [List.foldl_cons]
    refine ⟨le_trans (le_max_left m0 (sc a)) (ih (max m0 (sc a))).1, ?_⟩
    intro x hx
    rcases List.mem_cons.mp hx with rfl | hx
    · exact le_trans (le_max_right m0 (sc x)) (ih (max m0 (sc x))).1
    · exact (ih (max m0 (sc a))).2 x hx

/-- The running-maximum fold value is the start or the score of a member. -/
theorem foldl_max_cases {α β : Type} [LinearOrder β] (sc : α → β) :
    ∀ (l : List α) (m0 : β),
      l.foldl (fun m x => max m (sc x)) m0 = m0
      ∨ ∃ x ∈ l, sc x = l.foldl (fun m x => max m (sc x)) m0 := by
  intro l
  induction l with
  | nil => exact fun _ => Or.inl rfl
  | cons a t ih =>
    intro m0
    simp only [List.foldl_cons]
    rcases ih (max m0 (sc a)) with h | ⟨x, hx, hsc⟩
    · rcases le_total (sc a) m0 with hle | hle
      · left
        rw [h, max_eq_left hle]
      · right
        exact ⟨a, List.mem_cons_self a t, by rw [h, max_eq_right hle]⟩
    · right
      exact ⟨x, List.mem_cons_of_mem a hx, hsc⟩

/-- When nothing exceeds the start, the running-maximum fold is the start. -/
theorem foldl_max_of_le {α β : Type} [LinearOrder β] (sc : α → β) :
    ∀ (l : List α) (m0 : β), (∀ x ∈ l, sc x ≤ m0) →
      l.foldl (fun m x => max m (sc x)) m0 = m0 := by
  intro l
  induction l with
  | nil => intro m0 _; rfl
  | cons a t ih =>
    intro m0 hall
    simp only [List.foldl_cons]
    rw [max_eq_left (hall a (List.mem_cons_self a t))]
    exact ih m0 fun x hx => hall x (List.mem_cons_of_mem a hx)

/-- When nothing beats the start, the strict-improvement fold keeps it. -/
theorem foldl_strict_of_le {α β : Type} [LinearOrder β] (sc : α → β) :
    ∀ (l : List α) (a0 : α), (∀ x ∈ l, sc x ≤ sc a0) →
      l.foldl (fun x y => if sc x < sc y then y else x) a0 = a0 := by
  intro l
  induction l with
  | nil => intro a0 _; rfl
  | cons a t ih =>
    intro a0 hall
    simp only [List.foldl_cons]
    rw [if_neg (not_lt.mpr (hall a (List.mem_cons_self a t)))]
    exact ih a0 fun x hx => hall x (List.mem_cons_of_mem a hx)

/-- When something beats the start, the strict-improvement fold returns the
first element attaining the running maximum. -/
theorem foldl_strict_first {α β : Type} [LinearOrder β] (sc : α → β) :
    ∀ (l : List α) (a0 : α), (∃ x ∈ l, sc a0 < sc x) →
      l.find? (fun y => decide (sc y = l.foldl (fun m x => max m (sc x)) (sc a0)))
        = some (l.foldl (fun x y => if sc x < sc y then y else x) a0) := by
  intro l
  induction l with
  | nil => intro a0 h; simp at h
  | cons a t ih =>
    intro a0 hex
    simp only [List.foldl_cons]
    by_cases hlt : sc a0 < sc a
    · rw [if_pos hlt]
      simp only [max_eq_right (le_of_lt hlt)]
      by_cases hex2 : ∃ x ∈ t, sc a < sc x
      · have hM : sc a < t.foldl (fun m x => max m (sc x)) (sc a) := by
          obtain ⟨x, hx, hax⟩ := hex2
          exact lt_of_lt_of_le hax ((foldl_max_le sc t (sc a)).2 x hx)
        rw [List.find?_cons_of_neg _
          (by simp only [decide_eq_true_eq]; exact ne_of_lt hM)]
        exact ih a hex2
      · push_neg at hex2
        have hM : t.foldl (fun m x => max m (sc x)) (sc a) = sc a :=
          foldl_max_of_le sc t (sc a) hex2
        simp only [hM]
        rw [List.find?_cons_of_pos _ (by simp),
          foldl_strict_of_le sc t a hex2]
    · rw [if_neg hlt]
      have hle : sc a ≤ sc a0 := not_lt.mp hlt
      simp only [max_eq_left hle]
      have hex2 : ∃ x ∈ t, sc a0 < sc x := by
        obtain ⟨x, hx, hax⟩ := hex
        rcases List.mem_cons.mp hx with rfl | hx2
        · exact absurd hax hlt
        · exact ⟨x, hx2, hax⟩
      have hM : sc a < t.foldl (fun m x => max m (sc x)) (sc a0) := by
        obtain ⟨x, hx, hax⟩ := hex2
        exact lt_of_le_of_lt hle
          (lt_of_lt_of_le hax ((foldl_max_le sc t (sc a0)).2 x hx))
      rw [List.find?_cons_of_neg _
        (by simp only [decide_eq_true_eq]; exact ne_of_lt hM)]
      exact ih a0 hex2

/-- Nat.sqrt 2 is 1, proved through the sqrt order lemmas because Nat.sqrt
is defined by well-founded recursion. -/
theorem natSqrt_two : Nat.sqrt 2 = 1 := by
  have h1 : 1 ≤ Nat.sqrt 2 := by
    rw [Nat.le_sqrt]
    norm_num
  have h2 : Nat.sqrt 2 < 2 := by
    rw [Nat.sqrt_lt]
    norm_num
  omega

/-- ratSqrt at 0. -/
theorem ratSqrt_zero : ratSqrt 0 = some 0 := by
  have ht : Int.toNat 0 = 0 := rfl
  norm_num [ratSqrt, ht, Rat.num_ofNat, Rat.den_ofNat]

/-- ratSqrt at 1. -/
theorem ratSqrt_one : ratSqrt 1 = some 1 := by
  have ht : Int.toNat 1 = 1 := rfl
  norm_num [ratSqrt, ht, Rat.num_one, Rat.den_one]

/-- ratSqrt at 2: no rational square root. -/
theorem ratSqrt_two : ratSqrt 2 = none := by
  have ht : Int.toNat 2 = 2 := rfl
  norm_num [ratSqrt, ht, Rat.num_ofNat, Rat.den_ofNat, natSqrt_two]

/-- Normalization fixes any vector of squared length 1. -/
theorem normalized_of_sq_one (v : Vector2) (h : v.x * v.x + v.y * v.y = 1) :
    v.normalized = v := by
  obtain ⟨x, y⟩ := v
  unfold Vector2.normalized
  simp only at h ⊢
  rw [h, ratSqrt_one]
  norm_num

/-- Normalization leaves any vector of squared length 2 unscaled in this
model (its length is irrational). -/
theorem normalized_of_sq_two (v : Vector2) (h : v.x * v.x + v.y * v.y = 2) :
    v.normalized = v := by
  obtain ⟨x, y⟩ := v
  unfold Vector2.normalized
  simp only at h ⊢
  rw [h, ratSqrt_two]

/-- Normalization of the zero vector. -/
theorem normalized_v00 : Vector2.normalized ⟨0, 0⟩ = ⟨0, 0⟩ := by
  unfold Vector2.normalized
  norm_num [ratSqrt_zero]

/-- Normalization of the unit vector pointing up. -/
theorem normalized_v01 : Vector2.normalized ⟨0, 1⟩ = ⟨0, 1⟩ :=
  normalized_of_sq_one _ (by norm_num)

/-- Normalization of the unit vector pointing down. -/
theorem normalized_v0m1 : Vector2.normalized ⟨0, -1⟩ = ⟨0, -1⟩ :=
  normalized_of_sq_one _ (by norm_num)

/-- Normalization of the unit vector pointing right. -/
theorem normalized_v10 : Vector2.normalized ⟨1, 0⟩ = ⟨1, 0⟩ :=
  normalized_of_sq_one _ (by norm_num)

/-- Normalization of the unit vector pointing left. -/
theorem normalized_vm10 : Vector2.normalized ⟨-1, 0⟩ = ⟨-1, 0⟩ :=
  normalized_of_sq_one _ (by norm_num)

/-- Normalization of the up-right diagonal. -/
theorem normalized_v11 : Vector2.normalized ⟨1, 1⟩ = ⟨1, 1⟩ :=
  normalized_of_sq_two _ (by norm_num)

/-- Normalization of the down-right diagonal. -/
theorem normalized_v1m1 : Vector2.normalized ⟨1, -1⟩ = ⟨1, -1⟩ :=
  normalized_of_sq_two _ (by norm_num)

/-- Normalization of the up-left diagonal. -/
theorem normalized_vm11 : Vector2.normalized ⟨-1, 1⟩ = ⟨-1, 1⟩ :=
  normalized_of_sq_two _ (by norm_num)

/-- Normalization of the down-left diagonal. -/
theorem normalized_vm1m1 : Vector2.normalized ⟨-1, -1⟩ = ⟨-1, -1⟩ :=
  normalized_of_sq_two _ (by norm_num)

set_option maxHeartbeats 1600000 in
/-- C6: the codec realizes the closed 17-entry table exactly: for every
canonical index i in [0,16] the round trip through human_intent_from_index
and human_intent_to_index is the identity; every flag combination that is not
the image of a canonical index maps to index 0; and every index outside
[1,16] maps to the idle flags. -/
theorem c6_codec_table :
    (∀ i : Nat, i ≤ 16 →
      human_intent_to_index (human_intent_from_index i) = i)
    ∧ (∀ f : HumanIntent, (∀ i : Fin 17, human_intent_from_index i.val ≠ f) →
      human_intent_to_index f = 0)
    ∧ (∀ idx : Nat, idx = 0 ∨ 16 < idx →
      human_intent_from_index idx = HumanIntent.IDLE) := by
  refine ⟨?_, ?_, ?_⟩
  · intro i hi
    interval_cases i <;> rfl
  · intro f
    obtain ⟨u, d, l, r, t⟩ := f
    revert u d l r t
    decide
  · intro idx h
    rcases h with rfl | h
    · rfl
    · have h1 : idx ≠ 1 := by omega
      have h2 : idx ≠ 2 := by omega
      have h3 : idx ≠ 3 := by omega
      have h4 : idx ≠ 4 := by omega
      have h5 : idx ≠ 5 := by omega
      have h6 : idx ≠ 6 := by omega
      have h7 : idx ≠ 7 := by omega
      have h8 : idx ≠ 8 := by omega
      have h9 : idx ≠ 9 := by omega
      have h10 : idx ≠ 10 := by omega
      have h11 : idx ≠ 11 := by omega
      have h12 : idx ≠ 12 := by omega
      have h13 : idx ≠ 13 := by omega
      have h14 : idx ≠ 14 := by omega
      have h15 : idx ≠ 15 := by omega
      have h16 : idx ≠ 16 := by omega
      simp [human_intent_from_index, h1, h2, h3, h4, h5, h6, h7, h8, h9, h10,
        h11, h12, h13, h14, h15, h16]

/-- C6 witness: the round trip at canonical index 5, a non-canonical
combination mapping to 0, and the out-of-range index 17 mapping to idle. -/
theorem c6_codec_table_witness :
    human_intent_to_index (human_intent_from_index 5) = 5
    ∧ human_intent_to_index (HumanIntent.union HumanIntent.UP HumanIntent.DOWN) = 0
    ∧ human_intent_from_index 17 = HumanIntent.IDLE :=
  ⟨c6_codec_table.1 5 (by omega),
   c6_codec_table.2.1 (HumanIntent.union HumanIntent.UP HumanIntent.DOWN)
     (by decide),
   c6_codec_table.2.2 17 (Or.inr (by omega))⟩

/-- C3 counterexample: with Up and Down both set the code assigns the y axis
twice and the Down assignment wins, so the direction is (0, -1) and the
resolver emits a Move, while the claimed normalized-sum direction is the zero
vector (opposite flags cancelling). -/
theorem c3_counterexample :
    dirOf (HumanIntent.union HumanIntent.UP HumanIntent.DOWN) = ⟨0, -1⟩
    ∧ dirOfClaim (HumanIntent.union HumanIntent.UP HumanIntent.DOWN) = ⟨0, 0⟩
    ∧ dirOf (HumanIntent.union HumanIntent.UP HumanIntent.DOWN)
      ≠ dirOfClaim (HumanIntent.union HumanIntent.UP HumanIntent.DOWN)
    ∧ human_intent_to_intent baseEngine
        (HumanIntent.union HumanIntent.UP HumanIntent.DOWN) PlayerSide.Left
      = Intent.Move ⟨0, -1⟩ := by
  have hfl : HumanIntent.union HumanIntent.UP HumanIntent.DOWN
      = ⟨true, true, false, false, false⟩ := by decide
  rw [hfl]
  have hdir : dirOf ⟨true, true, false, false, false⟩ = ⟨0, -1⟩ := by
    simp only [dirOf, Vector2.zero, if_true, if_false]
    exact normalized_v0m1
  have hclaim : dirOfClaim ⟨true, true, false, false, false⟩ = ⟨0, 0⟩ := by
    simp only [dirOfClaim]
    norm_num [normalized_v00]
  have hne : (⟨0, -1⟩ : Vector2) ≠ ⟨0, 0⟩ := by
    simp only [ne_eq, Vector2.mk.injEq]
    norm_num
  refine ⟨hdir, hclaim, by rw [hdir, hclaim]; exact hne, ?_⟩
  simp only [human_intent_to_intent, hdir]
  norm_num

/-- C3 amended: the axis flags assign rather than add — Down overrides Up on
the vertical axis and Right overrides Left on the horizontal axis — and the
assigned vector is then normalized, the zero vector staying zero.  For every
combination not setting both flags of an axis this coincides with the
normalized sum of the axis contributions of the original claim. -/
theorem c3_direction_assignment :
    (∀ input : HumanIntent,
      dirOf input = Vector2.normalized
        ⟨if input.right then 1 else if input.left then -1 else 0,
         if input.down then -1 else if input.up then 1 else 0⟩)
    ∧ (∀ input : HumanIntent,
      (input.up && input.down) = false → (input.left && input.right) = false →
      dirOf input = dirOfClaim input)
    ∧ Vector2.normalized Vector2.zero = Vector2.zero := by
  refine ⟨?_, ?_, normalized_v00⟩
  · intro input
    obtain ⟨u, d, l, r, t⟩ := input
    cases u <;> cases d <;> cases l <;> cases r <;> cases t <;>
      norm_num [dirOf, Vector2.zero]
  · intro input
    obtain ⟨u, d, l, r, t⟩ := input
    cases u <;> cases d <;> cases l <;> cases r <;> cases t <;>
      norm_num [dirOf, dirOfClaim, Vector2.zero]

/-- C3 amended claim witness: a concrete diagonal input evaluated through the
theorem. -/
theorem c3_direction_assignment_witness :
    dirOf (HumanIntent.union HumanIntent.UP HumanIntent.LEFT)
      = dirOfClaim (HumanIntent.union HumanIntent.UP HumanIntent.LEFT) :=
  c3_direction_assignment.2.1 (HumanIntent.union HumanIntent.UP HumanIntent.LEFT)
    (by decide) (by decide)

/-- C7: the light-throw choice is side-relative while possessing: side Left
with Throw+Up+Right gives LightUp, side Right with Throw+Up+Left gives
LightUp, side Left with Throw+Up+Left gives plain Up, and symmetrically
LightDown and Down for the Down flag. -/
theorem c7_side_relative_throw (eL eR : GameEngine)
    (hL : eL.frisbee.held_by_player = some PlayerSide.Left)
    (hR : eR.frisbee.held_by_player = some PlayerSide.Right) :
    human_intent_to_intent eL TUR PlayerSide.Left
      = Intent.Throw ThrowDirection.LightUp
    ∧ human_intent_to_intent eR TUL PlayerSide.Right
      = Intent.Throw ThrowDirection.LightUp
    ∧ human_intent_to_intent eL TUL PlayerSide.Left
      = Intent.Throw ThrowDirection.Up
    ∧ human_intent_to_intent eL TDR PlayerSide.Left
      = Intent.Throw ThrowDirection.LightDown
    ∧ human_intent_to_intent eR TDL PlayerSide.Right
      = Intent.Throw ThrowDirection.LightDown
    ∧ human_intent_to_intent eL TDL PlayerSide.Left
      = Intent.Throw ThrowDirection.Down := by
  refine ⟨?_, ?_, ?_, ?_, ?_, ?_⟩ <;>
    simp [human_intent_to_intent, throwDirOf, hL, hR, TUR, TUL, TDR, TDL,
      HumanIntent.union, HumanIntent.THROW, HumanIntent.UP, HumanIntent.DOWN,
      HumanIntent.LEFT, HumanIntent.RIGHT]

/-- C7 witness: the six equalities at concrete possessing engines. -/
theorem c7_side_relative_throw_witness :
    human_intent_to_intent heldLeftEngine TUR PlayerSide.Left
      = Intent.Throw ThrowDirection.LightUp
    ∧ human_intent_to_intent heldRightEngine TUL PlayerSide.Right
      = Intent.Throw ThrowDirection.LightUp
    ∧ human_intent_to_intent heldLeftEngine TUL PlayerSide.Left
      = Intent.Throw ThrowDirection.Up
    ∧ human_intent_to_intent heldLeftEngine TDR PlayerSide.Left
      = Intent.Throw ThrowDirection.LightDown
    ∧ human_intent_to_intent heldRightEngine TDL PlayerSide.Right
      = Intent.Throw ThrowDirection.LightDown
    ∧ human_intent_to_intent heldLeftEngine TDL PlayerSide.Left
      = Intent.Throw ThrowDirection.Down :=
  c7_side_relative_throw heldLeftEngine heldRightEngine rfl rfl

/-- C8: with the Throw flag set and the side not possessing, the resolver
never returns a Throw intent; it returns Dash with the computed direction. -/
theorem c8_throw_degrades_to_dash (e : GameEngine) (input : HumanIntent)
    (side : PlayerSide) (ht : input.thrw = true)
    (hh : e.frisbee.held_by_player ≠ some side) :
    human_intent_to_intent e input side = Intent.Dash (dirOf input) := by
  unfold human_intent_to_intent
  simp [ht, hh]

/-- C8 witness: a bare Throw input, frisbee free, evaluated through the
theorem. -/
theorem c8_throw_degrades_to_dash_witness :
    human_intent_to_intent baseEngine HumanIntent.THROW PlayerSide.Left
      = Intent.Dash (dirOf HumanIntent.THROW) :=
  c8_throw_degrades_to_dash baseEngine HumanIntent.THROW PlayerSide.Left rfl
    (by decide)

/-- Characterization of the idle loop: it performs k idle epochs for some
k ≤ n; every post-epoch state strictly before the last was Playing; stopping
short of the budget means the last epoch left Playing; and with a positive
budget at least one epoch always runs, because the check follows the epoch. -/
theorem idleLoop_spec (dyn : Dynamics) :
    ∀ (n : Nat) (e : GameEngine), ∃ k : Nat, k ≤ n
      ∧ idleLoop dyn e n = (epochIdle dyn)^[k] e
      ∧ (∀ j : Nat, 1 ≤ j → j < k →
          ((epochIdle dyn)^[j] e).state_of_game = StateOfGame.Playing)
      ∧ (k < n → ((epochIdle dyn)^[k] e).state_of_game ≠ StateOfGame.Playing)
      ∧ (1 ≤ n → 1 ≤ k) := by
  intro n
  induction n with
  | zero =>
    intro e
    exact ⟨0, le_refl 0, rfl, fun j h1 h2 => absurd h2 (by omega),
      fun h => absurd h (by omega), fun h => absurd h (by omega)⟩
  | succ n ih =>
    intro e
    by_cases hp : (epochIdle dyn e).state_of_game = StateOfGame.Playing
    · obtain ⟨k, hk, heq, hmid, hstop, _⟩ := ih (epochIdle dyn e)
      refine ⟨k + 1, by omega, ?_, ?_, ?_, fun _ => by omega⟩
      · show idleLoop dyn e (n + 1) = _
        simp only [idleLoop]
        rw [if_neg (by simp [hp]), heq, Function.iterate_succ_apply]
      · intro j h1 hj
        obtain ⟨m, rfl⟩ : ∃ m, j = m + 1 := ⟨j - 1, by omega⟩
        rw [Function.iterate_succ_apply]
        rcases Nat.eq_zero_or_pos m with rfl | hm
        · simpa using hp
        · exact hmid m hm (by omega)
      · intro hkn
        rw [Function.iterate_succ_apply]
        exact hstop (by omega)
    · refine ⟨1, by omega, ?_, fun j h1 hj => absurd h1 (by omega), ?_,
        fun _ => le_refl 1⟩
      · show idleLoop dyn e (n + 1) = _
        simp only [idleLoop]
        rw [if_pos hp, Function.iterate_one]
      · intro _
        rw [Function.iterate_one]
        exact hp

/-- C5 amended: the simulation driver applies the intent for exactly one step
with the opposing side receiving Intent.None, then runs k idle epochs with
k at most the frame budget, where the Playing check happens after each epoch:
every epoch strictly before the last saw Playing, stopping short of the
budget means the last epoch left Playing, and with a positive budget at least
one idle epoch always runs even when the intent step itself already left the
Playing state.  The result is the acting side's score in the final engine,
paired with the original intent unchanged. -/
theorem c5_simulation_driver (dyn : Dynamics) (e : GameEngine)
    (side : PlayerSide) (intent : Intent) (n : Nat) :
    ∃ k : Nat, k ≤ n
      ∧ simulation dyn e side intent n
        = ((scoreOf side
              ((epochIdle dyn)^[k] (dyn.step e (pairIntents side intent))),
            intent),
           (epochIdle dyn)^[k] (dyn.step e (pairIntents side intent)))
      ∧ (∀ j : Nat, 1 ≤ j → j < k →
          ((epochIdle dyn)^[j]
              (dyn.step e (pairIntents side intent))).state_of_game
            = StateOfGame.Playing)
      ∧ (k < n →
          ((epochIdle dyn)^[k]
              (dyn.step e (pairIntents side intent))).state_of_game
            ≠ StateOfGame.Playing)
      ∧ (1 ≤ n → 1 ≤ k) := by
  obtain ⟨k, hk, heq, hmid, hstop, hpos⟩ :=
    idleLoop_spec dyn n (dyn.step e (pairIntents side intent))
  exact ⟨k, hk, by simp only [simulation, heq], hmid, hstop, hpos⟩

/-- C5 amended claim witness: the characterization evaluated at identity
dynamics with a zero frame budget. -/
theorem c5_simulation_driver_witness :
    ∃ k : Nat, k ≤ 0
      ∧ simulation idDynamics baseEngine PlayerSide.Left Intent.None 0
        = ((scoreOf PlayerSide.Left
              ((epochIdle idDynamics)^[k]
                (idDynamics.step baseEngine
                  (pairIntents PlayerSide.Left Intent.None))),
            Intent.None),
           (epochIdle idDynamics)^[k]
             (idDynamics.step baseEngine
               (pairIntents PlayerSide.Left Intent.None)))
      ∧ (∀ j : Nat, 1 ≤ j → j < k →
          ((epochIdle idDynamics)^[j]
              (idDynamics.step baseEngine
                (pairIntents PlayerSide.Left Intent.None))).state_of_game
            = StateOfGame.Playing)
      ∧ (k < 0 →
          ((epochIdle idDynamics)^[k]
              (idDynamics.step baseEngine
                (pairIntents PlayerSide.Left Intent.None))).state_of_game
            ≠ StateOfGame.Playing)
      ∧ (1 ≤ 0 → 1 ≤ k) :=
  c5_simulation_driver idDynamics baseEngine PlayerSide.Left Intent.None 0

/-- C5 counterexample: with dynamics whose intent step ends the game while an
idle epoch still changes the score, the code performs one idle epoch with a
budget of 1 (the Playing check only runs after advancing) and returns score
1, while the driver modelled from the claim sentence — stopping the moment
the game is no longer Playing — performs none and returns score 0. -/
theorem c5_counterexample :
    (simulation endStepDynamics baseEngine PlayerSide.Left Intent.None 1).1.1 = 1
    ∧ (simulationClaim endStepDynamics baseEngine PlayerSide.Left
        Intent.None 1).1.1 = 0 := by
  constructor <;> rfl

/-- The two folds of get_best agree after replacing the conditional update
with max. -/
theorem foldl_ifmax_eq (l : List Node) (m0 : Int) :
    l.foldl (fun m n => if m < n.score then n.score else m) m0
      = l.foldl (fun m n => max m n.score) m0 := by
  induction l generalizing m0 with
  | nil => rfl
  | cons a t ih =>
    simp only [List.foldl_cons]
    rw [ih]
    congr 1
    by_cases h : m0 < a.score
    · rw [if_pos h, max_eq_right (le_of_lt h)]
    · rw [if_neg h, max_eq_left (le_of_not_lt h)]

/-- The push loop of get_best is a filter: the copied node is the original
node by structure eta, and a node is kept exactly when its score equals the
running maximum computed by the first pass. -/
theorem get_best_eq_filter (nodes : List Node) :
    get_best nodes
      = nodes.filter (fun n => decide (n.score
          = nodes.foldl (fun m n => if m < n.score then n.score else m) 0)) := by
  unfold get_best
  generalize nodes.foldl (fun m n => if m < n.score then n.score else m) 0 = M
  suffices h : ∀ (l : List Node) (acc : List Node),
      l.foldl
        (fun acc n =>
          if n.score = M then
            acc ++ [⟨n.engine, n.first_intent, n.cost, n.score⟩]
          else acc) acc
        = acc ++ l.filter (fun n => decide (n.score = M)) by
    simpa using h nodes []
  intro l
  induction l with
  | nil => intro acc; simp
  | cons a t ih =>
    intro acc
    simp only [List.foldl_cons, List.filter_cons]
    have heta : (⟨a.engine, a.first_intent, a.cost, a.score⟩ : Node) = a := rfl
    by_cases ha : a.score = M
    · rw [if_pos ha, heta, ih]
      simp [ha]
    · rw [if_neg ha, ih]
      simp [ha]

/-- C1 amended: get_best selects the nodes whose score equals the maximum of
0 and the highest score present, so whenever some node has a nonnegative
score the selection is exactly the set of maximum-score nodes; on the fixed
collection of scores [10, 50, 50, 30] it returns exactly the two nodes
scoring 50.  (A collection whose scores are all negative instead yields an
empty selection — see the counterexample.) -/
theorem c1_get_best_max (nodes : List Node) (n0 : Node) (h0 : n0 ∈ nodes)
    (hpos : 0 ≤ n0.score) :
    (∀ m : Node, m ∈ get_best nodes
      ↔ m ∈ nodes ∧ ∀ k ∈ nodes, k.score ≤ m.score)
    ∧ get_best demoNodes = [demoNode50a, demoNode50b] := by
  constructor
  · intro m
    rw [get_best_eq_filter, List.mem_filter]
    simp only [foldl_ifmax_eq, decide_eq_true_eq]
    constructor
    · rintro ⟨hmem, hsc⟩
      refine ⟨hmem, fun k hk => ?_⟩
      rw [hsc]
      exact (foldl_max_le (fun n => n.score) nodes 0).2 k hk
    · rintro ⟨hmem, hmax⟩
      refine ⟨hmem, ?_⟩
      have hub := (foldl_max_le (fun n => n.score) nodes 0).2 m hmem
      rcases foldl_max_cases (fun n => n.score) nodes 0 with hM | ⟨x, hx, hxM⟩
      · have h1 : (0 : Int) ≤ m.score := le_trans hpos (hmax n0 h0)
        rw [hM] at hub ⊢
        omega
      · have h1 : x.score ≤ m.score := hmax x hx
        rw [← hxM] at hub ⊢
        omega
  · rfl

/-- C1 witness: the membership characterization and the [10, 50, 50, 30]
example evaluated on the demo collection. -/
theorem c1_get_best_max_witness :
    (demoNode50a ∈ get_best demoNodes
      ↔ demoNode50a ∈ demoNodes ∧ ∀ k ∈ demoNodes, k.score ≤ demoNode50a.score)
    ∧ get_best demoNodes = [demoNode50a, demoNode50b] := by
  have h := c1_get_best_max demoNodes demoNode10 (by simp [demoNodes])
    (by norm_num [demoNode10])
  exact ⟨h.1 demoNode50a, h.2⟩

/-- C1 counterexample: on the singleton collection holding only negNode of
score -5 the maximum score present is -5, but get_best starts its running
maximum at 0 and returns the empty selection, so the node of maximum score is
not returned and the claimed characterization fails. -/
theorem c1_counterexample :
    ¬ (negNode ∈ get_best [negNode]
        ↔ negNode ∈ [negNode] ∧ ∀ k ∈ [negNode], k.score ≤ negNode.score) := by
  intro hiff
  have h2 : negNode ∈ [negNode] ∧ ∀ k ∈ [negNode], k.score ≤ negNode.score := by
    refine ⟨List.mem_singleton_self _, ?_⟩
    intro k hk
    rw [List.mem_singleton.mp hk]
  have h1 := hiff.mpr h2
  have hempty : get_best [negNode] = [] := rfl
  rw [hempty] at h1
  exact absurd h1 (List.not_mem_nil _)

/-- C10: RandomRolloutAgent::act leaves the live game state unchanged.  In
the embedding every mutation through the &mut borrow is threaded into the
returned engine; the body only reads the live engine (run_simulation copies
it into the scratch engine and the simulation driver mutates the copy), so
the live engine handed back is exactly the one received. -/
theorem c10_rollout_preserves_engine (cfg : RandomRolloutAgent)
    (dyn : Dynamics) (side : PlayerSide) (e : GameEngine) :
    (RandomRolloutAgent.act cfg dyn side e).2 = e := rfl

/-- Folding a constant inner list once per index equals folding over the
flattened repetition. -/
theorem foldl_flatMap_const {α γ : Type} (f : α → γ → α) (L : List γ) :
    ∀ (idx : List Nat) (a0 : α),
      idx.foldl (fun p _ => L.foldl f p) a0
        = (idx.flatMap (fun _ => L)).foldl f a0 := by
  intro idx
  induction idx with
  | nil => intro a0; rfl
  | cons i t ih =>
    intro a0
    simp only [List.foldl_cons, List.flatMap_cons, List.foldl_append]
    exact ih (L.foldl f a0)

/-- The nested fold of RandomRolloutAgent::act is the strict-improvement fold
over the flattened evaluation list. -/
theorem rollout_fold_eq (dyn : Dynamics) (cfg : RandomRolloutAgent)
    (side : PlayerSide) (e : GameEngine) :
    (List.range cfg.sim).foldl
      (fun prev _ =>
        (rolloutCandidates e side).foldl
          (fun p c => run_simulation dyn p e side c cfg.frames) prev)
      ((0 : Int), Intent.None)
    = (rolloutEvalList dyn cfg side e).foldl
        (fun x y => if x.1 < y.1 then y else x) ((0 : Int), Intent.None) := by
  have hinner : ∀ prev : Int × Intent,
      (rolloutCandidates e side).foldl
        (fun p c => run_simulation dyn p e side c cfg.frames) prev
      = ((rolloutCandidates e side).map
          (fun c => (simulation dyn e side c cfg.frames).1)).foldl
          (fun x y => if x.1 < y.1 then y else x) prev := by
    intro prev
    rw [List.foldl_map]
    rfl
  simp only [hinner]
  exact foldl_flatMap_const _ _ (List.range cfg.sim) _

/-- Every evaluated pair carries a candidate intent from the per-repetition
enumeration. -/
theorem evalList_snd_mem (dyn : Dynamics) (cfg : RandomRolloutAgent)
    (side : PlayerSide) (e : GameEngine) :
    ∀ q ∈ rolloutEvalList dyn cfg side e, q.2 ∈ rolloutCandidates e side := by
  intro q hq
  unfold rolloutEvalList at hq
  simp only [List.mem_flatMap, List.mem_map, List.mem_range] at hq
  obtain ⟨i, _, c, hc, rfl⟩ := hq
  have hsnd : ((simulation dyn e side c cfg.frames).1).2 = c := rfl
  rw [hsnd]
  exact hc

/-- No rollout candidate is Intent.None. -/
theorem rolloutCandidates_ne_none (e : GameEngine) (side : PlayerSide) :
    ∀ c ∈ rolloutCandidates e side, c ≠ Intent.None := by
  intro c hc
  have hsub : c ∈ throwIntents ∨ c ∈ rolloutNonHoldCandidates e side := by
    rcases h : e.frisbee.held_by_player with _ | s <;>
      simp only [rolloutCandidates, h] at hc
    · exact Or.inr hc
    · by_cases hs : s = side
      · rw [if_pos hs] at hc
        exact Or.inl hc
      · rw [if_neg hs] at hc
        exact Or.inr hc
  rcases hsub with h | h
  · simp only [throwIntents, List.mem_cons, List.not_mem_nil, or_false] at h
    rcases h with rfl | rfl | rfl | rfl | rfl <;> simp
  · unfold rolloutNonHoldCandidates at h
    by_cases hs : (playerOf side e).slide.isNone
    · rw [if_pos hs] at h
      simp only [moveDashIntents, List.mem_cons, List.not_mem_nil, or_false] at h
      rcases h with rfl | rfl | rfl | rfl | rfl | rfl | rfl | rfl | rfl | rfl
        | rfl | rfl | rfl | rfl | rfl | rfl <;> simp
    · rw [if_neg hs] at h
      simp at h

/-- C2 amended: RandomRolloutAgent::act returns the earliest-evaluated
candidate whose simulated score is strictly greatest and strictly positive
(the held best starts at score 0 with Intent.None, and is replaced only on a
strictly greater score); and it returns Intent.None exactly when every
evaluated candidate scored at most 0 — in particular, but not only, when no
candidates were evaluated because the side is mid-dash and not possessing. -/
theorem c2_rollout_selection (dyn : Dynamics) (cfg : RandomRolloutAgent)
    (side : PlayerSide) (e : GameEngine) :
    (RandomRolloutAgent.act cfg dyn side e).1 = rolloutSpec dyn cfg side e
    ∧ ((RandomRolloutAgent.act cfg dyn side e).1 = Intent.None ↔
        ∀ p ∈ rolloutEvalList dyn cfg side e, p.1 ≤ 0) := by
  have hact : (RandomRolloutAgent.act cfg dyn side e).1
      = ((rolloutEvalList dyn cfg side e).foldl
          (fun x y => if x.1 < y.1 then y else x) ((0 : Int), Intent.None)).2 := by
    simp only [RandomRolloutAgent.act]
    rw [rollout_fold_eq]
  by_cases hex : ∃ p ∈ rolloutEvalList dyn cfg side e, (0 : Int) < p.1
  · obtain ⟨p0, hp0, hpos⟩ := hex
    have hfind : (rolloutEvalList dyn cfg side e).find?
        (fun p => decide (p.1 = rolloutMaxScore (rolloutEvalList dyn cfg side e)))
        = some ((rolloutEvalList dyn cfg side e).foldl
            (fun x y => if x.1 < y.1 then y else x) ((0 : Int), Intent.None)) :=
      foldl_strict_first Prod.fst (rolloutEvalList dyn cfg side e)
        ((0 : Int), Intent.None) ⟨p0, hp0, hpos⟩
    have hMpos : 0 < rolloutMaxScore (rolloutEvalList dyn cfg side e) :=
      lt_of_lt_of_le hpos
        ((foldl_max_le Prod.fst (rolloutEvalList dyn cfg side e) 0).2 p0 hp0)
    have hspec : rolloutSpec dyn cfg side e
        = ((rolloutEvalList dyn cfg side e).foldl
            (fun x y => if x.1 < y.1 then y else x) ((0 : Int), Intent.None)).2 := by
      simp only [rolloutSpec]
      rw [if_pos hMpos, hfind]
      rfl
    have hne : (RandomRolloutAgent.act cfg dyn side e).1 ≠ Intent.None := by
      rw [hact]
      exact rolloutCandidates_ne_none e side _
        (evalList_snd_mem dyn cfg side e _ (List.mem_of_find?_eq_some hfind))
    refine ⟨by rw [hact, hspec], ?_, fun hall => absurd (hall p0 hp0) (not_le.mpr hpos)⟩
    intro h
    exact absurd h hne
  · push_neg at hex
    have hfold : (rolloutEvalList dyn cfg side e).foldl
        (fun x y => if x.1 < y.1 then y else x) ((0 : Int), Intent.None)
        = ((0 : Int), Intent.None) :=
      foldl_strict_of_le Prod.fst (rolloutEvalList dyn cfg side e)
        ((0 : Int), Intent.None) hex
    have hM : rolloutMaxScore (rolloutEvalList dyn cfg side e) = 0 :=
      foldl_max_of_le Prod.fst (rolloutEvalList dyn cfg side e) 0 hex
    have hspec : rolloutSpec dyn cfg side e = Intent.None := by
      simp only [rolloutSpec]
      rw [hM]
      simp
    refine ⟨?_, ?_⟩
    · rw [hact, hfold, hspec]
    · constructor
      · intro _
        exact hex
      · intro _
        rw [hact, hfold]

/-- C2 amended claim witness: the selection rule evaluated at identity
dynamics on the base engine. -/
theorem c2_rollout_selection_witness :
    (RandomRolloutAgent.act ⟨0, 1⟩ idDynamics PlayerSide.Left baseEngine).1
      = rolloutSpec idDynamics ⟨0, 1⟩ PlayerSide.Left baseEngine :=
  (c2_rollout_selection idDynamics ⟨0, 1⟩ PlayerSide.Left baseEngine).1

/-- C2 counterexample: sliding nobody — on the base engine (side not
possessing, not mid-dash) with identity dynamics all 16 candidates are
evaluated and all score 0, yet act returns Intent.None, falsifying the
claimed equivalence that Intent.None is returned only when no candidates
were evaluated. -/
theorem c2_counterexample :
    (RandomRolloutAgent.act ⟨0, 1⟩ idDynamics PlayerSide.Left baseEngine).1
      = Intent.None
    ∧ rolloutCandidates baseEngine PlayerSide.Left ≠ [] := by
  constructor
  · rfl
  · simp [rolloutCandidates, rolloutNonHoldCandidates, moveDashIntents,
      baseEngine, playerOf]

/-- max_index attains the maximum of the array, and ties go to the first
(least) index: any index holding the same value is at least max_index. -/
theorem max_index_argmax (a : QArray) :
    (∀ k, a k ≤ a (max_index a))
    ∧ (∀ k, a k = a (max_index a) → max_index a ≤ k) := by
  by_cases hex : ∃ y ∈ List.finRange QVALUES_ACTIONS,
      a ⟨0, by norm_num⟩ < a y
  · have hfind : (List.finRange QVALUES_ACTIONS).find?
        (fun y => decide (a y = (List.finRange QVALUES_ACTIONS).foldl
          (fun m x => max m (a x)) (a ⟨0, by norm_num⟩)))
        = some (max_index a) :=
      foldl_strict_first a (List.finRange QVALUES_ACTIONS) ⟨0, by norm_num⟩ hex
    have hval : a (max_index a)
        = (List.finRange QVALUES_ACTIONS).foldl
            (fun m x => max m (a x)) (a ⟨0, by norm_num⟩) := by
      have h := List.find?_some hfind
      simpa using h
    constructor
    · intro k
      rw [hval]
      exact (foldl_max_le a (List.finRange QVALUES_ACTIONS) _).2 k
        (List.mem_finRange k)
    · intro k hk
      rcases List.find?_eq_some.mp hfind with ⟨hpb, as, bs, hsplit, hprev⟩
      have hkmem : k ∈ List.finRange QVALUES_ACTIONS := List.mem_finRange k
      rw [hsplit] at hkmem
      rcases List.mem_append.mp hkmem with hka | hkrb
      · exfalso
        have hbad := hprev k hka
        simp only [Bool.not_eq_eq_eq_not, Bool.not_true, decide_eq_false_iff_not] at hbad
        exact hbad (hk.trans hval)
      · rcases List.mem_cons.mp hkrb with rfl | hkb
        · exact le_refl _
        · have hpw := List.pairwise_lt_finRange QVALUES_ACTIONS
          rw [hsplit] at hpw
          have h2 := (List.pairwise_append.mp hpw).2.1
          have h3 := (List.pairwise_cons.mp h2).1 k hkb
          exact le_of_lt h3
  · push_neg at hex
    have hr : max_index a = ⟨0, by norm_num⟩ :=
      foldl_strict_of_le a (List.finRange QVALUES_ACTIONS) ⟨0, by norm_num⟩
        fun x hx => hex x hx
    constructor
    · intro k
      rw [hr]
      exact hex k (List.mem_finRange k)
    · intro k _
      rw [hr, Fin.le_def]
      exact Nat.zero_le _

/-- C9: on the exploit branch (the draw is not below explo_rate),
TabularQLearningAgent::act writes into the acting side's input slot the flags
of the index chosen by max_index over that side's 17-element array when the
state hash is present in the table, and of index 0 when it is absent; and
max_index picks the index of the maximum value with the first index winning
ties. -/
theorem c9_exploit_argmax (dyn : Dynamics) (rng : QRng) (side : PlayerSide)
    (e : GameEngine) (hdr : e.explo_rate ≤ rng.draw) :
    (∀ p : QArray × QArray, e.q_values.lookup (dyn.hash e) = some p →
      inputSlot side (TabularQLearningAgent.act dyn rng side e).2
        = human_intent_from_index (max_index (qArrOf side p)).val)
    ∧ (e.q_values.lookup (dyn.hash e) = none →
      inputSlot side (TabularQLearningAgent.act dyn rng side e).2
        = human_intent_from_index 0)
    ∧ ∀ a : QArray,
        (∀ k, a k ≤ a (max_index a))
        ∧ (∀ k, a k = a (max_index a) → max_index a ≤ k) := by
  have hnotlt : ¬ (rng.draw < e.explo_rate) := not_lt.mpr hdr
  refine ⟨?_, ?_, fun a => max_index_argmax a⟩
  · intro p hp
    cases side <;>
      simp [TabularQLearningAgent.act, hnotlt, hp, inputSlot, qArrOf]
  · intro hp
    cases side <;>
      simp [TabularQLearningAgent.act, hnotlt, hp, inputSlot, qArrOf]

/-- C9 witness: a one-entry table under hash 0 whose left array peaks at
index 3, exploit draw equal to the exploration rate. -/
theorem c9_exploit_argmax_witness :
    inputSlot PlayerSide.Left
      (TabularQLearningAgent.act idDynamics ⟨0, ⟨0, by norm_num⟩⟩
        PlayerSide.Left tableEngine).2
      = human_intent_from_index
          (max_index (qArrOf PlayerSide.Left (demoArray, qZero))).val :=
  (c9_exploit_argmax idDynamics ⟨0, ⟨0, by norm_num⟩⟩ PlayerSide.Left
    tableEngine (le_refl _)).1 (demoArray, qZero) rfl

/-- A nonnegative-score member keeps get_best from coming back empty. -/
theorem get_best_ne_nil (nodes : List Node) (n0 : Node) (h0 : n0 ∈ nodes)
    (hpos : 0 ≤ n0.score) : get_best nodes ≠ [] := by
  obtain ⟨m, hm, hms⟩ : ∃ m ∈ nodes, m.score
      = nodes.foldl (fun m n => if m < n.score then n.score else m) 0 := by
    rw [foldl_ifmax_eq]
    rcases foldl_max_cases (fun n => n.score) nodes 0 with h | ⟨x, hx, hxM⟩
    · refine ⟨n0, h0, ?_⟩
      have hub := (foldl_max_le (fun n => n.score) nodes 0).2 n0 h0
      rw [h] at hub ⊢
      omega
    · exact ⟨x, hx, hxM⟩
  intro hemp
  rw [get_best_eq_filter] at hemp
  have hmm : m ∈ List.filter
      (fun n => decide (n.score
        = nodes.foldl (fun m n => if m < n.score then n.score else m) 0)) nodes :=
    List.mem_filter.mpr ⟨hm, by simpa using hms⟩
  rw [hemp] at hmm
  exact List.not_mem_nil _ hmm

/-- The selection tail of DijkstraAgent::act is defined whenever get_best is
nonempty. -/
theorem dij_selection_isSome (coin : Nat → Nat) (nodes : List Node)
    (h : get_best nodes ≠ []) :
    (match get_best nodes with
      | [] => none
      | b :: bs =>
        some (dijTieBreak coin (b :: bs) b.cost b.first_intent)).isSome
      = true := by
  rcases hgb : get_best nodes with _ | ⟨b, bs⟩
  · exact absurd hgb h
  · rfl

/-- C4 amended: whenever the acting side's score is nonnegative — which holds
for every state the game produces, scores counting up from zero — the node
collection of DijkstraAgent::act contains the root node of that score, its
get_best selection is nonempty, and the final indexing of the first element
is defined.  (With a negative acting score and no candidates — mid-dash,
not possessing — get_best is empty and the Rust indexing panics; see the
counterexample.) -/
theorem c4_dijkstra_selection_defined (dyn : Dynamics) (coin : Nat → Nat)
    (side : PlayerSide) (e : GameEngine)
    (hpos : 0 ≤ (playerOf side e).score) :
    (DijkstraAgent.act dyn coin side e).isSome = true := by
  unfold DijkstraAgent.act
  refine dij_selection_isSome coin _ ?_
  exact get_best_ne_nil _ _ (List.mem_cons_self _ _) hpos

/-- C4 witness: mid-dash, not possessing, score zero — the selection is
still defined through the root node. -/
theorem c4_dijkstra_selection_defined_witness :
    (DijkstraAgent.act idDynamics (fun _ => 0) PlayerSide.Left
      dashingZeroEngine).isSome = true :=
  c4_dijkstra_selection_defined idDynamics (fun _ => 0) PlayerSide.Left
    dashingZeroEngine (le_refl _)

/-- C4 counterexample: mid-dash, not possessing, score -1 — the only node is
the root of score -1, get_best starts its maximum at 0 and returns nothing,
and the selection is undefined (the Rust best[0] panics; the embedding
returns none). -/
theorem c4_counterexample :
    DijkstraAgent.act idDynamics (fun _ => 0) PlayerSide.Left
      dashingNegEngine = none := rfl

end Rustjammers
